import Mathlib

/-!
Verification development for the wiki-server repository.

Shallow embedding of the core data model and operations of the repository
(`app/services/rag_service.py`, `app/services/analysis_service.py`,
`app/services/wiki_generation_service.py`, `app/services/wiki_tree_service.py`,
`app/utils/rag_utils.py`), with theorems settling the behavioural claims
C1..C10 about chunking, index building, change detection, pipeline
orchestration, site-map construction, search and persistence.

Conventions:
- Python strings are modelled as `List Char`; `text[s:e]` slicing with
  non-negative indices is `pySlice`.
- External collaborators (the embedding service, the chonkie chunkers, the
  tiktoken tokenizer, faiss) are modelled as explicit parameters; the
  invariants those libraries guarantee appear as hypotheses of the theorems.
- Filesystem writes performed by the index persistence step are modelled as
  an explicit event trace so that atomicity properties can be stated.
-/

/-- Python slice `text[s:e]` for non-negative indices `s`, `e`:
out-of-range indices clamp, `s >= e` yields the empty string. -/
def pySlice (text : List Char) (s e : Nat) : List Char :=
  (text.drop s).take (e - s)

/-- Python `str.strip()`: remove leading and trailing whitespace. -/
def pyStrip (s : List Char) : List Char :=
  ((s.dropWhile Char.isWhitespace).reverse.dropWhile Char.isWhitespace).reverse

/-- Helper for `countWords`: counts maximal runs of non-whitespace
characters; the flag records whether the previous character was
non-whitespace (i.e. whether we are inside a run already counted). -/
def countWordsAux : Bool → List Char → Nat
  | _, [] => 0
  | inWord, c :: rest =>
    if c.isWhitespace then countWordsAux false rest
    else (if inWord then 0 else 1) + countWordsAux true rest

/-- `len(re.findall(r"\S+", s))`: the number of maximal runs of
non-whitespace characters in `s`. -/
def countWords (s : List Char) : Nat := countWordsAux false s

/-- Hard cap on the re-tokenized length of a chunk
(`MAX_CHUNK_TOKENS = 4000` in `app/utils/rag_utils.py`). -/
def MAX_CHUNK_TOKENS : Nat := 4000

/-- A chunk record produced by the chonkie `CodeChunker`
(fields `start_index`, `end_index`, `text`). -/
structure CodeChunk where
  start_index : Nat
  end_index : Nat
  text : List Char
deriving DecidableEq

/-- A chunk record produced by the chonkie `SentenceChunker`
(fields `start_index`, `end_index`, `token_count`). -/
structure SentenceChunk where
  start_index : Nat
  end_index : Nat
  token_count : Nat
deriving DecidableEq

/-- `chunk_text_tree_sitter` from `app/utils/rag_utils.py`.
`tok` models `len(tiktoken.encode(·))`; `chunkerOut` models the value of
`get_chunker(lang).chunk(text)` (`none` when the chunker raised, in which
case the surrounding `try/except` returns `[]`).  First every chunk with a
positive approximate word count is kept as `(start_index, end_index, words)`,
then any span whose re-tokenized slice exceeds `MAX_CHUNK_TOKENS` is
dropped. -/
def chunk_text_tree_sitter (tok : List Char → Nat) (text : List Char)
    (chunkerOut : Option (List CodeChunk)) : List (Nat × Nat × Nat) :=
  match chunkerOut with
  | none => []
  | some chunks =>
    let result := chunks.filterMap (fun c =>
      if countWords c.text ≠ 0 then some (c.start_index, c.end_index, countWords c.text)
      else none)
    result.filter (fun sp => tok (pySlice text sp.1 sp.2.1) ≤ MAX_CHUNK_TOKENS)

/-- `chunk_text_sentences` from `app/utils/rag_utils.py`.
`tok` models `len(tiktoken.encode(·))`; `chunkerOut` models
`get_sentence_chunker(...).chunk(text)`.  Empty or whitespace-only input
short-circuits to `[]`; otherwise a chunk is kept as
`(start_index, end_index, token_count)` when its `token_count` is positive
and its re-tokenized slice stays within `MAX_CHUNK_TOKENS`. -/
def chunk_text_sentences (tok : List Char → Nat) (text : List Char)
    (chunkerOut : List SentenceChunk) : List (Nat × Nat × Nat) :=
  if text = [] ∨ pyStrip text = [] then []
  else
    chunkerOut.filterMap (fun c =>
      if 0 < c.token_count then
        if tok (pySlice text c.start_index c.end_index) ≤ MAX_CHUNK_TOKENS then
          some (c.start_index, c.end_index, c.token_count)
        else none
      else none)

/-! ## Site map construction (`app/services/wiki_tree_service.py`) -/

/-- A filesystem entry below the project root: either a regular file with a
byte size, or a directory with its children.  Children are stored in the
order `sorted(os.listdir(...))` yields them, i.e. sorted by name; theorems
that need this carry it as a hypothesis. -/
inductive FSTree where
  | file (name : String) (size : Nat)
  | dir (name : String) (children : List FSTree)

/-- The wiki tree: a nested ordered mapping from path segment to subtree.
A leaf is `node []` (the empty dict `{}` in Python). -/
inductive WikiTree where
  | node (entries : List (String × WikiTree))

/-- `IGNORE_DIRS` from `app/services/wiki_tree_service.py`. -/
def IGNORE_DIRS : List String :=
  [".git", ".svn", ".hg", ".idea", ".vscode", "__pycache__", ".mypy_cache",
   ".pytest_cache", ".cache", "logs", "log", "tmp", "temp", "htmlcov",
   "env", "venv", ".venv", "node_modules", "build", "dist", "out", "target",
   ".gradle", ".next", ".serverless", ".terraform", ".DS_Store", ".metals",
   ".bloop", ".ivy2", "project", ".bundle", ".vagrant", ".ipynb_checkpoints",
   ".metadata", ".settings", ".classpath", ".project"]

/-- `code_extensions` from `app/services/wiki_tree_service.py`. -/
def code_extensions : List String :=
  [".py", ".js", ".ts", ".jsx", ".tsx", ".java", ".cpp", ".c", ".h", ".hpp",
   ".go", ".rs", ".php", ".swift", ".cs", ".html", ".css", ".sh", ".bash",
   ".ps1", ".ipynb", ".scala", ".sbt", ".sql", ".rb", ".kt", ".kts", ".dart",
   ".r", ".hs", ".clj", ".cljs", ".groovy", ".elm", ".vue", ".lua", ".coffee",
   ".m", ".mm", ".fs", ".fsi", ".fsx", ".erl", ".ex", ".exs", ".asm", ".s",
   ".config"]

/-- `doc_extensions` from `app/services/wiki_tree_service.py`. -/
def doc_extensions : List String :=
  [".md", ".txt", ".rst", ".json", ".yaml", ".yml", ".ini", ".toml", ".xml",
   ".cfg", ".props", ".properties", ".sql", ".csv", ".tsv", ".config"]

/-- `allowed_exts = set(code_extensions + doc_extensions)`. -/
def allowed_exts : List String := code_extensions ++ doc_extensions

/-- `IGNORE_FILES` from `app/services/wiki_tree_service.py`.  Note that the
glob-looking entries are matched literally by the code
(`if entry in IGNORE_FILES`); they are kept verbatim here. -/
def IGNORE_FILES : List String :=
  ["package-lock.json", "yarn.lock", "pnpm-lock.yaml", ".DS_Store", ".env",
   ".gitignore", "*.log", "*.pyc", "*.pyo", "*.class", "*.jar", "*.war",
   "*.ear", "npm-debug.log", "yarn-debug.log", "yarn-error.log", "*.zip",
   "*.tar", "*.tar.gz", "*.rar", "*.7z", "*.db", ".npmrc", ".yarnrc",
   ".env.local", ".env.*", ".eslintcache", "Makefile", "makefile"]

/-- Python `str.lower()` (ASCII-relevant part), written over the character
list so that it evaluates inside the kernel. -/
def pyToLower (s : String) : String := String.mk (s.toList.map Char.toLower)

/-- Python `str.startswith(pre)`, written over character lists so that it
evaluates inside the kernel. -/
def pyStartsWith (s pre : String) : Bool :=
  s.toList.take pre.toList.length == pre.toList

/-- The extension part of `os.path.splitext(name)`: the suffix starting at
the last dot, where dots that begin the basename do not count
(`".env"` has extension `""`, `"a.py"` has `".py"`). -/
def splitextExt (name : String) : String :=
  let cs := name.toList
  let rest := cs.drop (cs.takeWhile (· == '.')).length
  if rest.contains '.' then
    String.mk ('.' :: ((rest.reverse.takeWhile (fun c => c ≠ '.')).reverse))
  else ""

/-- The inner `build_tree` of `create_wiki_structure`
(`app/services/wiki_tree_service.py`), applied to one directory listing.
Directories in `IGNORE_DIRS` or starting with a dot are skipped, and a
subdirectory is included only when its subtree is non-empty; a file is
included (as a leaf) when its name is not in `IGNORE_FILES`, its lowercased
extension is allow-listed and its size is positive. -/
def build_tree : List FSTree → List (String × WikiTree)
  | [] => []
  | FSTree.file name size :: rest =>
    if name ∈ IGNORE_FILES then build_tree rest
    else if pyToLower (splitextExt name) ∈ allowed_exts ∧ 0 < size then
      (name, WikiTree.node []) :: build_tree rest
    else build_tree rest
  | FSTree.dir name children :: rest =>
    if name ∈ IGNORE_DIRS ∨ pyStartsWith name "." then build_tree rest
    else
      let subtree := build_tree children
      if subtree.isEmpty then build_tree rest
      else (name, WikiTree.node subtree) :: build_tree rest

/-- Python `dict.update`: keys already in `base` keep their position but take
the updated value; keys only in `upd` are appended in `upd` order. -/
def pyDictUpdate (base upd : List (String × WikiTree)) : List (String × WikiTree) :=
  base.map (fun p => (p.1, ((upd.lookup p.1).getD p.2))) ++
    upd.filter (fun p => (base.lookup p.1).isNone)

/-- `create_wiki_structure` from `app/services/wiki_tree_service.py`.
`root` is `none` when `project_storage/{project_id}` does not exist,
otherwise the (sorted) listing of the project root.  The result starts from
`{"overview": {}}` and is `dict.update`d with the built tree. -/
def create_wiki_structure (root : Option (List FSTree)) : List (String × WikiTree) :=
  let base := [("overview", WikiTree.node [])]
  match root with
  | none => base
  | some children => pyDictUpdate base (build_tree children)

/-! ## Change detection (`embeddings_up_to_date`, `app/services/rag_service.py`) -/

/-- One element of the `items` list of the persisted index metadata: a chunk
record as produced by `_process_file` in `app/services/rag_service.py`.
`sha256` is `none` for records written by this code (the key is absent) and
`some h` for legacy records carrying a fingerprint. -/
structure ChunkMeta where
  file : String
  char_start : Nat
  char_end : Nat
  tokens : Nat
  is_code : Bool
  line_start : Nat
  line_end : Nat
  preview : List Char
  sha256 : Option String
deriving DecidableEq

/-- The persisted index metadata sidecar (`index_meta.json`):
`{dimension, count, project_id, created_at, items, files}`. -/
structure VecMeta where
  dimension : Nat
  count : Nat
  project_id : String
  created_at : String
  items : List ChunkMeta
  files : List (String × String)
deriving DecidableEq

/-- The first-occurrence deduplication loop of `embeddings_up_to_date`:
keeps the first `(file, sha)` pair for each file, in order, mirroring the
`seen` dictionary in the source. -/
def dedupFirstAux (seen : List String) : List (String × String) → List (String × String)
  | [] => []
  | p :: rest =>
    if p.1 ∈ seen then dedupFirstAux seen rest
    else p :: dedupFirstAux (p.1 :: seen) rest

/-- Python `set(xs) == set(ys)` on string lists. -/
def setEqStr (xs ys : List String) : Bool :=
  xs.all (fun x => ys.contains x) && ys.all (fun y => xs.contains y)

/-- `embeddings_up_to_date` from `app/services/rag_service.py`.
`metaOpt` is the parsed metadata (`none` when the file is missing or any
exception occurs while reading/parsing it); `scanned` is the relative-path
list returned by `get_project_files`; `fsExists p` models
`(src_root / p).exists()` and `sha p` models `file_sha256(src_root / p)`.
When the `files` manifest is non-empty it is compared against the scan;
otherwise a manifest is derived from the first occurrence of each file in
`items` (with `item.get("sha256", "")`). -/
def embeddings_up_to_date (metaOpt : Option VecMeta) (scanned : List String)
    (fsExists : String → Bool) (sha : String → String) : Bool :=
  match metaOpt with
  | none => false
  | some meta =>
    if meta.files ≠ [] then
      setEqStr (meta.files.map Prod.fst) scanned &&
        meta.files.all (fun p => fsExists p.1 && (sha p.1 == p.2))
    else
      let seen := dedupFirstAux [] (meta.items.map (fun it => (it.file, it.sha256.getD "")))
      seen.all (fun p => fsExists p.1 && (sha p.1 == p.2)) &&
        setEqStr (seen.map Prod.fst) scanned

/-- The manifest the change detector effectively checks: the persisted
`files` map when non-empty, otherwise the map derived from the first
occurrence of each file in `items`. -/
def manifestOf (meta : VecMeta) : List (String × String) :=
  if meta.files ≠ [] then meta.files
  else dedupFirstAux [] (meta.items.map (fun it => (it.file, it.sha256.getD "")))

/-- Specification-side up-to-date predicate, following the claim's words:
the persisted manifest's key set equals the current scanned file set and
every persisted fingerprint equals the freshly computed one; a missing or
unparseable manifest is never up to date. -/
def upToDateSpec (metaOpt : Option VecMeta) (scanned : List String)
    (sha : String → String) : Prop :=
  match metaOpt with
  | none => False
  | some meta =>
    ((manifestOf meta).map Prod.fst).toFinset = scanned.toFinset ∧
      ∀ p ∈ manifestOf meta, sha p.1 = p.2

/-! ## Streaming index build (`app/services/rag_service.py`) -/

/-- The in-memory FAISS index state relevant to the claims: its dimension
`d` and its row count `ntotal`. -/
structure FaissIndex where
  d : Nat
  ntotal : Nat
deriving DecidableEq

/-- The observable outcome of processing one embedding batch:
the embedder call raised (`embedFail`), normalization raised (`normFail`),
the embedder returned zero rows (`empty`), or it produced `rows` normalized
vectors of dimension `dim` (`ok`). -/
inductive BatchOutcome where
  | embedFail
  | normFail
  | empty
  | ok (rows : Nat) (dim : Nat)
deriving DecidableEq

/-- Effect of one batch on the index being built, mirroring the loop body of
`_build_faiss_index_stream`: failed/empty batches are skipped; the first
successful batch creates the index with its dimension; a later batch whose
dimension disagrees makes `index.add` raise, which is caught and skipped. -/
def addBatch (idx : Option FaissIndex) (out : BatchOutcome) : Option FaissIndex :=
  match out with
  | BatchOutcome.embedFail => idx
  | BatchOutcome.normFail => idx
  | BatchOutcome.empty => idx
  | BatchOutcome.ok rows dim =>
    if rows = 0 then idx
    else
      match idx with
      | none => some ⟨dim, rows⟩
      | some i => if dim = i.d then some ⟨i.d, i.ntotal + rows⟩ else some i

/-- Fuel-indexed splitting of a list into batches of size `bs`
(the fuel makes the recursion structural so that concrete instances
evaluate in the kernel; `batchesOf` supplies sufficient fuel). -/
def batchesOfAux (bs : Nat) : Nat → List α → List (List α)
  | 0, _ => []
  | _, [] => []
  | fuel + 1, x :: xs => (x :: xs).take bs :: batchesOfAux bs fuel (xs.drop (bs - 1))

/-- `texts[i : i + bs]` for `i = 0, bs, 2*bs, ...`, i.e. the batches
`range(0, total, EMBED_BATCH_SIZE)` iterates over.  Faithful for `bs ≥ 1`;
Python raises `ValueError` for a zero step, so all theorems assume
`0 < bs`. -/
def batchesOf (bs : Nat) (l : List α) : List (List α) :=
  batchesOfAux bs l.length l

/-- The batches of `texts` paired with their starting offset `i`
(the `i` of `range(0, total, EMBED_BATCH_SIZE)`, used to address the
per-batch embedder outcome). -/
def enumBatches (bs : Nat) (texts : List String) : List (Nat × List String) :=
  (batchesOf bs texts).enum.map (fun p => (p.1 * bs, p.2))

/-- The batch loop of `_build_faiss_index_stream`: fold `addBatch` over the
enumerated batches, skipping empty batches (`if not batch: continue`).
`outcomes i` is the embedder/normalizer outcome for the batch starting at
offset `i`. -/
def streamBatches (outcomes : Nat → BatchOutcome) :
    List (Nat × List String) → Option FaissIndex → Option FaissIndex
  | [], idx => idx
  | (i, batch) :: rest, idx =>
    if batch.isEmpty then streamBatches outcomes rest idx
    else streamBatches outcomes rest (addBatch idx (outcomes i))

/-- `_build_faiss_index_stream` from `app/services/rag_service.py`:
an empty text list yields an empty one-dimensional index; otherwise the
batches are streamed, and if no batch ever created the index the function
raises `RuntimeError` ("fails loudly"). -/
def build_faiss_index_stream (bs : Nat) (outcomes : Nat → BatchOutcome)
    (texts : List String) : Except String FaissIndex :=
  if texts.length = 0 then Except.ok ⟨1, 0⟩
  else
    match streamBatches outcomes (enumBatches bs texts) none with
    | none => Except.error "Failed to generate any valid embeddings for the FAISS index."
    | some i => Except.ok i

/-- The terminal outcome of `build_embeddings_for_project` relevant to the
claims: the status written to `status.json`, the metadata written to
`index_meta.json` (`none` when the run failed before writing it, leaving
any previous file in place), and the row count of the written vector
artifact (`none` when no artifact is written / it is deleted). -/
inductive BuildOutcome where
  | ready (vectors : Nat) (meta : VecMeta) (faissRows : Option Nat)
  | skipped (vectors : Nat)
  | failedBuild (err : String)
deriving DecidableEq

/-- `build_embeddings_for_project` from `app/services/rag_service.py`, from
the up-to-date decision onward.  `upToDate` models the freshness comparison
of the previous manifest against the current scan; `newTexts`/`newMetas`
are the chunk texts and chunk records collected from `_process_file` (one
record per text); `currentFiles` is the freshly fingerprinted manifest.
An up-to-date project is skipped; a project with no embeddable text
deletes the vector artifact and persists an empty descriptor with status
`ready`; otherwise the streamed index is written together with a metadata
sidecar holding all of `newMetas` (`count = len(new_metas)`), and a raised
`RuntimeError` is caught and recorded as status `failed` without writing
either file. -/
def build_embeddings_for_project (bs : Nat) (outcomes : Nat → BatchOutcome)
    (upToDate : Bool) (existingItems : List ChunkMeta)
    (newTexts : List String) (newMetas : List ChunkMeta)
    (currentFiles : List (String × String)) (pid now : String) : BuildOutcome :=
  if upToDate then BuildOutcome.skipped existingItems.length
  else if newTexts.isEmpty then
    BuildOutcome.ready 0 ⟨0, 0, pid, now, [], currentFiles⟩ none
  else
    match build_faiss_index_stream bs outcomes newTexts with
    | Except.error e => BuildOutcome.failedBuild e
    | Except.ok idx =>
      BuildOutcome.ready newMetas.length
        ⟨idx.d, newMetas.length, pid, now, newMetas, currentFiles⟩
        (some idx.ntotal)

/-! ## Persistence discipline of the index pair (`build_embeddings_for_project`) -/

/-- A filesystem event performed while persisting the index pair. -/
inductive FsEvent where
  | writeDirect (path : String)
  | writeTemp (path : String)
  | rename (src dst : String)
deriving DecidableEq

/-- The sequence of filesystem events the successful rebuild path of
`build_embeddings_for_project` performs on the index pair:
`faiss.write_index(index, str(faiss_path))` followed by
`open(meta_path, "w")` + `json.dump` — both direct in-place writes at the
final paths. -/
def persistIndexPairTrace (faissPath metaPath : String) : List FsEvent :=
  [FsEvent.writeDirect faissPath, FsEvent.writeDirect metaPath]

/-- A trace follows the atomic-replace discipline for the given final paths
when no final path is ever written directly: updates to final paths only
happen via `rename`. -/
def usesAtomicReplace (trace : List FsEvent) (finals : List String) : Bool :=
  trace.all (fun e =>
    match e with
    | FsEvent.writeDirect p => !(finals.contains p)
    | FsEvent.writeTemp _ => true
    | FsEvent.rename _ _ => true)

/-- Whether a prefix of a trace has already updated the file at `p`. -/
def updatedBy (trace : List FsEvent) (p : String) : Bool :=
  trace.any (fun e =>
    match e with
    | FsEvent.writeDirect q => q == p
    | FsEvent.writeTemp _ => false
    | FsEvent.rename _ dst => dst == p)

/-! ## Pipeline orchestration (`app/services/analysis_service.py`) -/

/-- `WikiStatus` from `app/models/project_model.py` (values used by the
pipeline). -/
inductive WikiStatus where
  | pending
  | analyzing
  | generated
  | failedStatus
deriving DecidableEq

/-- The columns of the project record the pipeline mutates. -/
structure Project where
  wiki_status : WikiStatus
  analysis_start_time : Option Nat
  analysis_end_time : Option Nat
deriving DecidableEq

/-- What a completed analysis stage leaves behind: the committed project
record plus whether the wiki tree file and the generated wiki were actually
written (they are not when the corresponding step raised). -/
structure AnalysisEffects where
  project : Project
  treePersisted : Bool
  wikiGenerated : Bool
deriving DecidableEq

/-- `start_analysis_for_project` from `app/services/analysis_service.py`.
`dbProject` is `db.get(Project, project_id)` (`none` aborts the stage);
`treeRaises` / `genRaises` say whether the wiki-tree step or the
generation step raises.  The record is first committed as `analyzing` with
a start timestamp `t1`; the tree/generation work runs inside one
`try/except` whose exception is only logged; the record is then committed
as `generated` with end timestamp `t2` unconditionally. -/
def start_analysis_for_project (dbProject : Option Project)
    (treeRaises genRaises : Bool) (t1 t2 : Nat) : Option AnalysisEffects :=
  match dbProject with
  | none => none
  | some p =>
    let p1 : Project := { p with wiki_status := WikiStatus.analyzing,
                                 analysis_start_time := some t1 }
    let treeOk := !treeRaises
    let genOk := treeOk && !genRaises
    some { project := { p1 with wiki_status := WikiStatus.generated,
                                analysis_end_time := some t2 },
           treePersisted := treeOk,
           wikiGenerated := genOk }

/-- `start_project_pipeline` from `app/services/analysis_service.py`.
`existsEarly` is the first `_project_exists` check, `existsPre` the
re-check after the embedding phase, `dbProject` the record fetched inside
`start_analysis_for_project`.  The whole embedding phase (up-to-date check
plus rebuild, outcome `embedUpToDate` / `embedRaises`) runs inside nested
`try/except` blocks that only set a logged flag, so it never affects
control flow beyond logging.  The result is `none` when the run aborted at
an existence check, otherwise the analysis stage's effects. -/
def start_project_pipeline (existsEarly : Bool)
    (embedUpToDate embedRaises : Bool) (existsPre : Bool)
    (dbProject : Option Project) (treeRaises genRaises : Bool)
    (t1 t2 : Nat) : Option AnalysisEffects :=
  if !existsEarly then none
  else
    let _embeddingFailed := !embedUpToDate && embedRaises
    if !existsPre then none
    else start_analysis_for_project dbProject treeRaises genRaises t1 t2

/-- One launch step of `start_project_pipeline_background`: under
`_RUNNING_LOCK`, a project id already in `_RUNNING_PIPELINES` makes the
call return immediately (no thread started); otherwise the id is added and
a pipeline thread is started.  Returns the new running set and whether a
run was started. -/
def launchPipeline (running : Finset String) (pid : String) :
    Finset String × Bool :=
  if pid ∈ running then (running, false)
  else (insert pid running, true)

/-- The `finally` block of the background runner: the project id is
discarded from the running set when the run finishes. -/
def finishPipeline (running : Finset String) (pid : String) : Finset String :=
  running.erase pid

/-! ## Content generation (`app/services/wiki_generation_service.py`) -/

/-- `MAX_AGENT_TOKENS` from `app/services/wiki_generation_service.py`. -/
def MAX_AGENT_TOKENS : Nat := 100000

/-- The `file_content` value `process_leaf` (inside
`generate_wiki_for_project`) passes to the generation agent.  `encode` and
`decode` model the fixed `tiktoken` `cl100k_base` tokenizer; `sourceText`
is the file's text when the backing file exists.  A missing file yields
empty content; a file whose token count exceeds `MAX_AGENT_TOKENS` is
truncated to the decoding of its first `MAX_AGENT_TOKENS` tokens. -/
def process_leaf_content (encode : String → List Nat) (decode : List Nat → String)
    (sourceText : Option String) : String :=
  match sourceText with
  | none => ""
  | some fileContent =>
    let tokens := encode fileContent
    if MAX_AGENT_TOKENS < tokens.length then decode (tokens.take MAX_AGENT_TOKENS)
    else fileContent

/-! ## Search (`_ProjectSearcher.search`, `app/services/rag_service.py`) -/

/-- The fields of one chunk record that `search` reads.  Character and line
positions are integers here because they come from parsed JSON
(`int(item.get("char_start", 0))`), which carries no non-negativity
guarantee. -/
structure SearchItem where
  file : String
  char_start : Int
  char_end : Int
  line_start : Int
  line_end : Int
  is_code : Bool
deriving DecidableEq

/-- One element of the list `search` returns.  The score type is abstract
(`float` in the source). -/
structure SearchResult (α : Type) where
  score : α
  file : String
  line_start : Int
  line_end : Int
  is_code : Bool
  title : String
  content : List Char
deriving DecidableEq

/-- Python slice `text[s:e]` for integer indices known to satisfy
`0 ≤ s ≤ e ≤ len(text)` (the only case in which `search` uses it). -/
def pySliceInt (text : List Char) (s e : Int) : List Char :=
  pySlice text s.toNat e.toNat

/-- The result-assembly loop of `_ProjectSearcher.search`: for each
`(idx, score)` pair returned by the FAISS search, a result row is emitted
only when `0 <= idx < len(items)`; the snippet is the recorded character
span of the owning file's cached text when that span is in bounds
(`0 <= s <= e <= len(text)`), and the empty string otherwise.  `fileText`
models the per-file read cache (a failed read caches `""`). -/
def searchRows (items : List SearchItem) (fileText : String → List Char) :
    List (Int × α) → List (SearchResult α)
  | [] => []
  | (idx, score) :: rest =>
    if h : 0 ≤ idx ∧ idx < (items.length : Int) then
      let item := items.get ⟨idx.toNat, by
        have h2 := h.2
        omega⟩
      let text := fileText item.file
      let s := item.char_start
      let e := item.char_end
      let snippet :=
        if 0 ≤ s ∧ s ≤ e ∧ e ≤ (text.length : Int) then pySliceInt text s e
        else []
      { score := score
        file := item.file
        line_start := item.line_start
        line_end := item.line_end
        is_code := item.is_code
        title := item.file ++ " L" ++ toString item.line_start ++ "-" ++
          toString item.line_end
        content := snippet } :: searchRows items fileText rest
    else searchRows items fileText rest

/-- `_ProjectSearcher.search` result assembly over the id/score rows
returned by `self.index.search(query_emb, top_k)` (FAISS returns exactly
`top_k` ids per query, padding with `-1`). -/
def searchResults (items : List SearchItem) (fileText : String → List Char)
    (ids : List Int) (scores : List α) : List (SearchResult α) :=
  searchRows items fileText (ids.zip scores)

/-! ## Small auxiliary definitions used by the theorems -/

/-- The name of a filesystem entry (`os.listdir` entry name). -/
def fsName : FSTree → String
  | FSTree.file n _ => n
  | FSTree.dir n _ => n

/-- A batch outcome that `_build_faiss_index_stream` skips without adding
rows: a raised embedder/normalizer error, or an empty embedding matrix. -/
def skipsBatch : BatchOutcome → Bool
  | BatchOutcome.embedFail => true
  | BatchOutcome.normFail => true
  | BatchOutcome.empty => true
  | BatchOutcome.ok rows _ => rows == 0

/-- Concrete chunk record used in counterexamples/witnesses. -/
def cMeta : ChunkMeta :=
  ⟨"a.py", 0, 1, 1, true, 1, 1, ['d'], none⟩

/-- Concrete per-batch outcomes for the C1 counterexample: the batch
starting at offset 0 fails at the embedder; every other batch returns one
normalized vector of dimension 4. -/
def cOutcomes : Nat → BatchOutcome := fun i =>
  if i = 0 then BatchOutcome.embedFail else BatchOutcome.ok 1 4

/-- Concrete tokenizer encode used in witnesses: 100001 tokens for any
input. -/
def encodeW : String → List Nat := fun _ => List.range 100001

/-- Concrete tokenizer decode used in witnesses. -/
def decodeW : List Nat → String := fun l => toString l.length

/-! ## Theorems -/

/-- C8: for every content-generation work item whose backing file exists and
whose tokenized length exceeds the 100,000-token ceiling, the content passed
to the generation capability is the decoding of exactly the first 100,000
tokens of the input; files at or under the ceiling are passed unmodified. -/
theorem C8_token_ceiling (encode : String → List Nat) (decode : List Nat → String)
    (fileContent : String) :
    (MAX_AGENT_TOKENS < (encode fileContent).length →
      process_leaf_content encode decode (some fileContent) =
        decode ((encode fileContent).take MAX_AGENT_TOKENS) ∧
      ((encode fileContent).take MAX_AGENT_TOKENS).length = MAX_AGENT_TOKENS) ∧
    ((encode fileContent).length ≤ MAX_AGENT_TOKENS →
      process_leaf_content encode decode (some fileContent) = fileContent) := by
  constructor
  · intro h
    constructor
    · simp [process_leaf_content, h]
    · simp [List.length_take]
      omega
  · intro h
    simp [process_leaf_content]
    omega

theorem C8_token_ceiling_witness :
    MAX_AGENT_TOKENS < (encodeW "x").length ∧
    process_leaf_content encodeW decodeW (some "x") =
      decodeW ((encodeW "x").take MAX_AGENT_TOKENS) := by
  refine ⟨by simp [encodeW, MAX_AGENT_TOKENS], ?_⟩
  exact ((C8_token_ceiling encodeW decodeW "x").1
    (by simp [encodeW, MAX_AGENT_TOKENS])).1

/-- C7: a second launch for a project id already in the running set is a
no-op, a launch for an id not in the set starts exactly one run after adding
the id, and finishing the run removes the id again, restoring the original
set. -/
theorem C7_launch_dedup (running : Finset String) (pid : String)
    (h : pid ∉ running) :
    (launchPipeline running pid).2 = true ∧
    (launchPipeline (launchPipeline running pid).1 pid).2 = false ∧
    (launchPipeline (launchPipeline running pid).1 pid).1 =
      (launchPipeline running pid).1 ∧
    finishPipeline (launchPipeline running pid).1 pid = running := by
  simp [launchPipeline, finishPipeline, h, Finset.erase_insert h]

theorem C7_launch_dedup_witness :
    ("p" ∉ (∅ : Finset String)) ∧
    (launchPipeline ∅ "p").2 = true ∧
    (launchPipeline (launchPipeline ∅ "p").1 "p").2 = false ∧
    finishPipeline (launchPipeline ∅ "p").1 "p" = ∅ := by
  have h : "p" ∉ (∅ : Finset String) := Finset.not_mem_empty _
  have := C7_launch_dedup ∅ "p" h
  exact ⟨h, this.1, this.2.1, this.2.2.2⟩

/-- C3: a pipeline run that passes all project-existence checks terminates
with `wiki_status = generated` and a persisted end timestamp, for every
combination of embedding-stage and site-map/generation-stage outcomes;
a run failing an existence check aborts without touching the record. -/
theorem C3_pipeline_terminal (existsEarly existsPre : Bool)
    (dbProject : Option Project)
    (embedUpToDate embedRaises treeRaises genRaises : Bool) (t1 t2 : Nat) :
    (existsEarly = true → existsPre = true → ∀ p, dbProject = some p →
      start_project_pipeline existsEarly embedUpToDate embedRaises existsPre
          dbProject treeRaises genRaises t1 t2 =
        some { project := { wiki_status := WikiStatus.generated,
                            analysis_start_time := some t1,
                            analysis_end_time := some t2 },
               treePersisted := !treeRaises,
               wikiGenerated := !treeRaises && !genRaises }) ∧
    ((existsEarly = false ∨ existsPre = false ∨ dbProject = none) →
      start_project_pipeline existsEarly embedUpToDate embedRaises existsPre
          dbProject treeRaises genRaises t1 t2 = none) := by
  constructor
  · intro h1 h2 p hp
    subst h1; subst h2; subst hp
    simp [start_project_pipeline, start_analysis_for_project]
  · rintro (h | h | h) <;> subst h <;>
      simp [start_project_pipeline, start_analysis_for_project]

theorem C3_pipeline_terminal_witness :
    start_project_pipeline true true true true
        (some { wiki_status := WikiStatus.pending,
                analysis_start_time := none, analysis_end_time := none })
        true true 5 9 =
      some { project := { wiki_status := WikiStatus.generated,
                          analysis_start_time := some 5,
                          analysis_end_time := some 9 },
             treePersisted := false,
             wikiGenerated := false } :=
  (C3_pipeline_terminal true true
      (some { wiki_status := WikiStatus.pending,
              analysis_start_time := none, analysis_end_time := none })
      true true true true 5 9).1 rfl rfl _ rfl

/-- C2 counterexample: the rebuild path of `build_embeddings_for_project`
writes both files of the index pair directly at their final paths, so the
write trace does not follow the atomic-replace (write-to-temp-then-rename)
discipline the claim asserts. -/
theorem C2_counterexample :
    usesAtomicReplace (persistIndexPairTrace "faiss.index" "index_meta.json")
      ["faiss.index", "index_meta.json"] = false := by decide

/-- C2 (amended): on every rebuild the vector artifact and the metadata
sidecar are written directly in place at their final paths — first the
vector artifact, then the metadata — with no temp-file-and-rename step, so
after the first write a concurrent reader can observe the new vector
artifact while the metadata is still the stale one. -/
theorem C2_amended (faissPath metaPath : String) (h : faissPath ≠ metaPath) :
    persistIndexPairTrace faissPath metaPath =
      [FsEvent.writeDirect faissPath, FsEvent.writeDirect metaPath] ∧
    usesAtomicReplace (persistIndexPairTrace faissPath metaPath)
      [faissPath, metaPath] = false ∧
    updatedBy ((persistIndexPairTrace faissPath metaPath).take 1) faissPath = true ∧
    updatedBy ((persistIndexPairTrace faissPath metaPath).take 1) metaPath = false := by
  refine ⟨rfl, ?_, ?_, ?_⟩
  · simp [usesAtomicReplace, persistIndexPairTrace]
  · simp [updatedBy, persistIndexPairTrace]
  · simp [updatedBy, persistIndexPairTrace]
    exact h

theorem C2_amended_witness :
    ("faiss.index" : String) ≠ "index_meta.json" ∧
    updatedBy ((persistIndexPairTrace "faiss.index" "index_meta.json").take 1)
      "faiss.index" = true ∧
    updatedBy ((persistIndexPairTrace "faiss.index" "index_meta.json").take 1)
      "index_meta.json" = false := by
  have h : ("faiss.index" : String) ≠ "index_meta.json" := by decide
  have := C2_amended "faiss.index" "index_meta.json" h
  exact ⟨h, this.2.2.1, this.2.2.2⟩

/-- Helper: the result-assembly loop emits at most one row per id/score
pair, and every emitted row corresponds to an item of the metadata list,
with its snippet equal to the recorded span of the cached file text when
that span is in bounds and empty otherwise. -/
theorem searchRows_spec {α : Type} (items : List SearchItem)
    (fileText : String → List Char) (l : List (Int × α)) :
    (searchRows items fileText l).length ≤ l.length ∧
    ∀ r ∈ searchRows items fileText l, ∃ item ∈ items,
      r.file = item.file ∧
      r.content = (if 0 ≤ item.char_start ∧ item.char_start ≤ item.char_end ∧
          item.char_end ≤ ((fileText item.file).length : Int)
        then pySliceInt (fileText item.file) item.char_start item.char_end
        else []) := by
  induction l with
  | nil => simp [searchRows]
  | cons hd tl ih =>
    obtain ⟨idx, score⟩ := hd
    by_cases h : 0 ≤ idx ∧ idx < (items.length : Int)
    · rw [searchRows, dif_pos h]
      constructor
      · simpa using Nat.succ_le_succ ih.1
      · intro r hr
        rcases List.mem_cons.mp hr with hr | hr
        · subst hr
          refine ⟨_, List.get_mem items _ _, rfl, rfl⟩
        · exact ih.2 r hr
    · rw [searchRows, dif_neg h]
      exact ⟨Nat.le_succ_of_le ih.1, ih.2⟩

/-- C10: for every loaded index/metadata pair — matched or not — the search
result assembly returns at most `top_k` rows, each returned row corresponds
to a metadata item selected by an id inside `[0, len(items))`, and each
row's snippet is the recorded character span of the cached file text when
`0 <= char_start <= char_end <= len(text)` and the empty string otherwise;
the assembly is a total function, so it never raises an out-of-bounds
error. -/
theorem C10_search_safety {α : Type} (items : List SearchItem)
    (fileText : String → List Char) (ids : List Int) (scores : List α)
    (top_k : Nat) (hk : ids.length = top_k) :
    (searchResults items fileText ids scores).length ≤ top_k ∧
    ∀ r ∈ searchResults items fileText ids scores, ∃ item ∈ items,
      r.file = item.file ∧
      r.content = (if 0 ≤ item.char_start ∧ item.char_start ≤ item.char_end ∧
          item.char_end ≤ ((fileText item.file).length : Int)
        then pySliceInt (fileText item.file) item.char_start item.char_end
        else []) := by
  have h := searchRows_spec items fileText (ids.zip scores)
  refine ⟨le_trans h.1 ?_, h.2⟩
  rw [List.length_zip]
  omega

theorem C10_search_safety_witness :
    ([0, 1, 5, -1] : List Int).length = 4 ∧
    (searchResults
        [⟨"a.py", 0, 1, 1, 1, true⟩, ⟨"b.py", 5, 2, 1, 1, false⟩]
        (fun _ => ['h', 'i']) ([0, 1, 5, -1] : List Int)
        ([10, 9, 8, 7] : List Nat)).length ≤ 4 :=
  ⟨rfl,
    (C10_search_safety
        [⟨"a.py", 0, 1, 1, 1, true⟩, ⟨"b.py", 5, 2, 1, 1, false⟩]
        (fun _ => ['h', 'i']) [0, 1, 5, -1] [10, 9, 8, 7] 4 rfl).1⟩

/-- Helper: a whitespace-only character list contains no word. -/
theorem countWordsAux_eq_zero {s : List Char}
    (hws : ∀ c ∈ s, c.isWhitespace) : ∀ b, countWordsAux b s = 0 := by
  induction s with
  | nil => intro b; rfl
  | cons c rest ih =>
    intro b
    have hc : c.isWhitespace := hws c (List.mem_cons_self c rest)
    simp [countWordsAux, hc]
    exact ih (fun x hx => hws x (List.mem_cons_of_mem c hx)) false

/-- Helper: a positive word count needs at least one character. -/
theorem countWords_ne_zero_ne_nil {s : List Char} (h : countWords s ≠ 0) :
    s ≠ [] := by
  intro he
  subst he
  exact h rfl

/-- Helper: stripping a whitespace-only string yields the empty string. -/
theorem pyStrip_eq_nil {s : List Char} (hws : ∀ c ∈ s, c.isWhitespace) :
    pyStrip s = [] := by
  unfold pyStrip
  have h1 : s.dropWhile Char.isWhitespace = [] :=
    List.dropWhile_eq_nil_iff.mpr hws
  simp [h1]

/-- Helper: the characters of a Python slice all come from the text. -/
theorem pySlice_subset {text : List Char} {s e : Nat} {x : Char}
    (h : x ∈ pySlice text s e) : x ∈ text := by
  unfold pySlice at h
  exact List.mem_of_mem_drop (List.mem_of_mem_take h)

/-- Helper: a nonempty Python slice implies a nonempty span starting inside
the text. -/
theorem pySlice_ne_nil {text : List Char} {s e : Nat}
    (h : pySlice text s e ≠ []) : s < e ∧ s < text.length := by
  unfold pySlice at h
  constructor
  · by_contra hse
    push_neg at hse
    have : e - s = 0 := by omega
    simp [this] at h
  · by_contra hs
    push_neg at hs
    have : text.drop s = [] := List.drop_eq_nil_of_le hs
    simp [this] at h

/-- C6: both chunking strategies drop (rather than split) any span whose
re-tokenized length exceeds the 4000-token hard ceiling; empty or
whitespace-only input yields zero spans; and every returned span is
non-empty (`start < end`) and lies within `[0, text length]` — given the
chunker-library invariants that a code chunk's `text` is the corresponding
slice of the input with `end_index` inside the input, and that a sentence
chunk with positive `token_count` is a non-degenerate in-bounds span. -/
theorem C6_chunk_spans (tok : List Char → Nat) (text : List Char)
    (codeOut : Option (List CodeChunk)) (sentOut : List SentenceChunk)
    (hcode : ∀ c ∈ codeOut.getD [],
      c.text = pySlice text c.start_index c.end_index ∧
      c.end_index ≤ text.length)
    (hsent : ∀ c ∈ sentOut, c.end_index ≤ text.length ∧
      (0 < c.token_count → c.start_index < c.end_index)) :
    (∀ sp ∈ chunk_text_tree_sitter tok text codeOut,
      tok (pySlice text sp.1 sp.2.1) ≤ MAX_CHUNK_TOKENS ∧
      sp.1 < sp.2.1 ∧ sp.2.1 ≤ text.length ∧
      ∃ c ∈ codeOut.getD [], sp.1 = c.start_index ∧ sp.2.1 = c.end_index) ∧
    (∀ sp ∈ chunk_text_sentences tok text sentOut,
      tok (pySlice text sp.1 sp.2.1) ≤ MAX_CHUNK_TOKENS ∧
      sp.1 < sp.2.1 ∧ sp.2.1 ≤ text.length ∧
      ∃ c ∈ sentOut, sp.1 = c.start_index ∧ sp.2.1 = c.end_index) ∧
    ((∀ ch ∈ text, ch.isWhitespace) →
      chunk_text_tree_sitter tok text codeOut = [] ∧
      chunk_text_sentences tok text sentOut = []) := by
  refine ⟨?_, ?_, ?_⟩
  · intro sp hsp
    match codeOut with
    | none => simp [chunk_text_tree_sitter] at hsp
    | some chunks =>
      simp only [chunk_text_tree_sitter, List.mem_filter, List.mem_filterMap] at hsp
      obtain ⟨⟨c, hc, hfc⟩, htok⟩ := hsp
      have hcw : countWords c.text ≠ 0 ∧
          sp = (c.start_index, c.end_index, countWords c.text) := by
        by_cases hw : countWords c.text ≠ 0
        · simp [hw] at hfc
          exact ⟨hw, hfc.symm⟩
        · simp [hw] at hfc
      obtain ⟨hw, hspc⟩ := hcw
      subst hspc
      have hprops := hcode c (by simpa using hc)
      have hne : c.text ≠ [] := countWords_ne_zero_ne_nil hw
      rw [hprops.1] at hne
      have hlt := pySlice_ne_nil hne
      exact ⟨by simpa using htok, hlt.1, hprops.2, c, by simpa using hc, rfl, rfl⟩
  · intro sp hsp
    simp only [chunk_text_sentences] at hsp
    by_cases hempty : text = [] ∨ pyStrip text = []
    · simp [hempty] at hsp
    · simp only [if_neg hempty, List.mem_filterMap] at hsp
      obtain ⟨c, hc, hfc⟩ := hsp
      by_cases htc : 0 < c.token_count
      · simp only [if_pos htc] at hfc
        by_cases htok : tok (pySlice text c.start_index c.end_index) ≤ MAX_CHUNK_TOKENS
        · simp only [if_pos htok, Option.some.injEq] at hfc
          subst hfc
          have hprops := hsent c hc
          exact ⟨htok, hprops.2 htc, hprops.1, c, hc, rfl, rfl⟩
        · simp [htok] at hfc
      · simp [htc] at hfc
  · intro hws
    constructor
    · match codeOut with
      | none => rfl
      | some chunks =>
        simp only [chunk_text_tree_sitter]
        rw [List.filter_eq_nil_iff]
        intro sp hsp
        rw [List.mem_filterMap] at hsp
        obtain ⟨c, hc, hfc⟩ := hsp
        by_cases hw : countWords c.text ≠ 0
        · exfalso
          have hprops := hcode c (by simpa using hc)
          have : ∀ x ∈ c.text, x.isWhitespace := by
            intro x hx
            rw [hprops.1] at hx
            exact hws x (pySlice_subset hx)
          exact hw (countWordsAux_eq_zero this false)
        · simp [hw] at hfc
    · simp only [chunk_text_sentences]
      by_cases hnil : text = []
      · simp [hnil]
      · simp [pyStrip_eq_nil hws]

theorem C6_chunk_spans_witness :
    (∀ c ∈ (some [(⟨0, 2, ['a', 'b']⟩ : CodeChunk)]).getD [],
      c.text = pySlice ['a', 'b'] c.start_index c.end_index ∧
      c.end_index ≤ (['a', 'b'] : List Char).length) ∧
    ∀ sp ∈ chunk_text_tree_sitter List.length ['a', 'b']
        (some [(⟨0, 2, ['a', 'b']⟩ : CodeChunk)]),
      List.length (pySlice ['a', 'b'] sp.1 sp.2.1) ≤ MAX_CHUNK_TOKENS ∧
      sp.1 < sp.2.1 ∧ sp.2.1 ≤ (['a', 'b'] : List Char).length ∧
      ∃ c ∈ (some [(⟨0, 2, ['a', 'b']⟩ : CodeChunk)]).getD [],
        sp.1 = c.start_index ∧ sp.2.1 = c.end_index := by
  have h1 : ∀ c ∈ (some [(⟨0, 2, ['a', 'b']⟩ : CodeChunk)]).getD [],
      c.text = pySlice ['a', 'b'] c.start_index c.end_index ∧
      c.end_index ≤ (['a', 'b'] : List Char).length := by decide
  have h2 : ∀ c ∈ [(⟨0, 2, 1⟩ : SentenceChunk)],
      c.end_index ≤ (['a', 'b'] : List Char).length ∧
      (0 < c.token_count → c.start_index < c.end_index) := by decide
  exact ⟨h1, (C6_chunk_spans List.length ['a', 'b']
    (some [(⟨0, 2, ['a', 'b']⟩ : CodeChunk)]) [(⟨0, 2, 1⟩ : SentenceChunk)]
    h1 h2).1⟩

/-- Helper: the Python set-equality test on string lists holds exactly when
the two lists have the same elements. -/
theorem setEqStr_iff (xs ys : List String) :
    setEqStr xs ys = true ↔ xs.toFinset = ys.toFinset := by
  simp only [setEqStr, Bool.and_eq_true, List.all_eq_true, List.elem_iff,
    Finset.ext_iff, List.mem_toFinset]
  constructor
  · intro h a
    exact ⟨fun ha => h.1 a ha, fun ha => h.2 a ha⟩
  · intro h
    exact ⟨fun a ha => (h a).mp ha, fun a ha => (h a).mpr ha⟩

/-- Helper: the manifest comparison both branches of
`embeddings_up_to_date` perform — set equality of keys plus existence and
fingerprint check per entry — is equivalent to the specification's
key-set-equality-and-fingerprint-match condition, as long as every scanned
file exists on disk. -/
theorem manifestCheck_iff (m : List (String × String)) (scanned : List String)
    (fsE : String → Bool) (sha : String → String)
    (hscan : ∀ p ∈ scanned, fsE p = true) :
    (setEqStr (m.map Prod.fst) scanned &&
        m.all (fun p => fsE p.1 && (sha p.1 == p.2))) = true ↔
      ((m.map Prod.fst).toFinset = scanned.toFinset ∧
        ∀ p ∈ m, sha p.1 = p.2) := by
  simp only [Bool.and_eq_true, List.all_eq_true, setEqStr_iff]
  constructor
  · intro h
    exact ⟨h.1, fun p hp => by
      have := h.2 p hp
      simp only [Bool.and_eq_true, beq_iff_eq] at this
      exact this.2⟩
  · intro h
    refine ⟨h.1, fun p hp => ?_⟩
    have hkey : p.1 ∈ scanned := by
      have : p.1 ∈ (m.map Prod.fst).toFinset := by
        simp only [List.mem_toFinset, List.mem_map]
        exact ⟨p, hp, rfl⟩
      rw [h.1] at this
      simpa using this
    simp only [Bool.and_eq_true, beq_iff_eq]
    exact ⟨hscan p.1 hkey, h.2 p hp⟩

/-- C4: `embeddings_up_to_date` returns true if and only if the persisted
manifest's key set equals the current scanned file set and every persisted
fingerprint equals the freshly computed one; a missing or unparseable
persisted metadata file makes it return false.  (The manifest is the
persisted `files` map when non-empty, otherwise the map derived from the
first occurrence of each file in `items`; the hypothesis records that
`get_project_files` only returns files that exist.) -/
theorem C4_up_to_date_iff (metaOpt : Option VecMeta) (scanned : List String)
    (fsExists : String → Bool) (sha : String → String)
    (hscan : ∀ p ∈ scanned, fsExists p = true) :
    embeddings_up_to_date metaOpt scanned fsExists sha = true ↔
      upToDateSpec metaOpt scanned sha := by
  match metaOpt with
  | none => simp [embeddings_up_to_date, upToDateSpec]
  | some meta =>
    simp only [embeddings_up_to_date, upToDateSpec, manifestOf]
    by_cases hf : meta.files ≠ []
    · simp only [if_pos hf]
      exact manifestCheck_iff meta.files scanned fsExists sha hscan
    · simp only [if_neg hf]
      rw [Bool.and_comm]
      exact manifestCheck_iff _ scanned fsExists sha hscan

theorem C4_up_to_date_iff_witness :
    (∀ p ∈ ["a.py"], (fun _ => true) p = true) ∧
    (embeddings_up_to_date
        (some ⟨4, 1, "p", "t", [], [("a.py", "h1")]⟩) ["a.py"]
        (fun _ => true) (fun _ => "h1") = true ↔
      upToDateSpec (some ⟨4, 1, "p", "t", [], [("a.py", "h1")]⟩) ["a.py"]
        (fun _ => "h1")) :=
  ⟨by decide,
    C4_up_to_date_iff (some ⟨4, 1, "p", "t", [], [("a.py", "h1")]⟩) ["a.py"]
      (fun _ => true) (fun _ => "h1") (by decide)⟩

/-- Helper: a skipped batch leaves the index unchanged. -/
theorem addBatch_of_skips {o : BatchOutcome} (h : skipsBatch o = true)
    (idx : Option FaissIndex) : addBatch idx o = idx := by
  match o with
  | BatchOutcome.embedFail => rfl
  | BatchOutcome.normFail => rfl
  | BatchOutcome.empty => rfl
  | BatchOutcome.ok rows dim =>
    simp [skipsBatch] at h
    simp [addBatch, h]

/-- Helper: if every batch is skipped, the stream never creates an index. -/
theorem streamBatches_none {outcomes : Nat → BatchOutcome}
    {l : List (Nat × List String)}
    (h : ∀ p ∈ l, skipsBatch (outcomes p.1) = true) :
    streamBatches outcomes l none = none := by
  induction l with
  | nil => rfl
  | cons hd tl ih =>
    obtain ⟨i, batch⟩ := hd
    have htl : ∀ p ∈ tl, skipsBatch (outcomes p.1) = true :=
      fun p hp => h p (List.mem_cons_of_mem _ hp)
    by_cases hb : batch.isEmpty
    · simp only [streamBatches, if_pos hb]
      exact ih htl
    · simp only [streamBatches, if_neg hb]
      rw [addBatch_of_skips (h (i, batch) (List.mem_cons_self _ _))]
      exact ih htl

/-- C5: when at least one chunk text exists but every embedding batch is
skipped, the index build raises (`_build_faiss_index_stream` returns the
`RuntimeError`, and `build_embeddings_for_project` catches it and records
status `failed` without writing the index pair); whereas a project with no
embeddable chunk texts terminates successfully with an empty persisted
descriptor — count 0, empty item list, no vector artifact — and status
`ready` with vector count zero. -/
theorem C5_terminal_outcomes (bs : Nat) (outcomes : Nat → BatchOutcome)
    (existingItems : List ChunkMeta) (newTexts : List String)
    (newMetas : List ChunkMeta) (currentFiles : List (String × String))
    (pid now : String) :
    (newTexts ≠ [] →
      (∀ p ∈ enumBatches bs newTexts, skipsBatch (outcomes p.1) = true) →
      build_faiss_index_stream bs outcomes newTexts =
        Except.error "Failed to generate any valid embeddings for the FAISS index." ∧
      build_embeddings_for_project bs outcomes false existingItems newTexts
          newMetas currentFiles pid now =
        BuildOutcome.failedBuild
          "Failed to generate any valid embeddings for the FAISS index.") ∧
    (newTexts = [] →
      build_embeddings_for_project bs outcomes false existingItems newTexts
          newMetas currentFiles pid now =
        BuildOutcome.ready 0 ⟨0, 0, pid, now, [], currentFiles⟩ none) := by
  constructor
  · intro hne hskip
    have hstream : build_faiss_index_stream bs outcomes newTexts =
        Except.error "Failed to generate any valid embeddings for the FAISS index." := by
      unfold build_faiss_index_stream
      rw [if_neg (by simpa using List.length_pos.mpr hne |>.ne')]
      rw [streamBatches_none hskip]
    refine ⟨hstream, ?_⟩
    unfold build_embeddings_for_project
    rw [if_neg (by simp)]
    rw [if_neg (by simpa using hne)]
    rw [hstream]
  · intro hnil
    subst hnil
    rfl

theorem C5_terminal_outcomes_witness :
    (["a"] : List String) ≠ [] ∧
    (∀ p ∈ enumBatches 128 ["a"],
      skipsBatch ((fun _ => BatchOutcome.embedFail) p.1) = true) ∧
    build_embeddings_for_project 128 (fun _ => BatchOutcome.embedFail) false []
        ["a"] [cMeta] [] "p" "t" =
      BuildOutcome.failedBuild
        "Failed to generate any valid embeddings for the FAISS index." := by
  refine ⟨by decide, by decide, ?_⟩
  exact ((C5_terminal_outcomes 128 (fun _ => BatchOutcome.embedFail) []
    ["a"] [cMeta] [] "p" "t").1 (by decide) (by decide)).2

/-- Helper: any fuel at least the list length gives the same batches. -/
theorem batchesOfAux_fuel {bs : Nat} :
    ∀ (f1 f2 : Nat) (l : List α), l.length ≤ f1 → l.length ≤ f2 →
      batchesOfAux bs f1 l = batchesOfAux bs f2 l := by
  intro f1
  induction f1 with
  | zero =>
    intro f2 l h1 _
    have : l = [] := List.eq_nil_of_length_eq_zero (Nat.le_zero.mp h1)
    subst this
    cases f2 <;> rfl
  | succ f ih =>
    intro f2 l h1 h2
    match l with
    | [] => cases f2 <;> rfl
    | x :: xs =>
      match f2 with
      | 0 => simp at h2
      | g + 1 =>
        simp only [batchesOfAux]
        congr 1
        apply ih
        · have := List.length_drop (bs - 1) xs
          simp at h1
          omega
        · have := List.length_drop (bs - 1) xs
          simp at h2
          omega

/-- Helper: unfolding `batchesOf` one batch at a time. -/
theorem batchesOf_cons {bs : Nat} (x : α) (xs : List α) :
    batchesOf bs (x :: xs) =
      (x :: xs).take bs :: batchesOf bs (xs.drop (bs - 1)) := by
  unfold batchesOf
  simp only [List.length_cons, batchesOfAux]
  congr 1
  apply batchesOfAux_fuel
  · have := List.length_drop (bs - 1) xs
    omega
  · exact Nat.le_refl _

/-- Helper: for a positive batch size the batches concatenate back to the
original list. -/
theorem batchesOf_join {bs : Nat} (hbs : 0 < bs) :
    ∀ (l : List α), (batchesOf bs l).flatten = l := by
  have main : ∀ (fuel : Nat) (l : List α), l.length ≤ fuel →
      (batchesOf bs l).flatten = l := by
    intro fuel
    induction fuel with
    | zero =>
      intro l h
      have : l = [] := List.eq_nil_of_length_eq_zero (Nat.le_zero.mp h)
      subst this
      rfl
    | succ f ih =>
      intro l h
      match l with
      | [] => rfl
      | x :: xs =>
        rw [batchesOf_cons, List.flatten_cons]
        have hdrop : (xs.drop (bs - 1)).length ≤ f := by
          have := List.length_drop (bs - 1) xs
          simp at h
          omega
        rw [ih _ hdrop]
        have hd : List.drop bs (x :: xs) = xs.drop (bs - 1) := by
          conv_lhs => rw [show bs = bs - 1 + 1 from by omega]
          exact List.drop_succ_cons
        rw [← hd, List.take_append_drop]
  exact fun l => main l.length l (Nat.le_refl _)

/-- Helper: for a positive batch size every batch is non-empty. -/
theorem batchesOf_ne_nil {bs : Nat} (hbs : 0 < bs) :
    ∀ (l : List α), ∀ b ∈ batchesOf bs l, b ≠ [] := by
  have main : ∀ (fuel : Nat) (l : List α), l.length ≤ fuel →
      ∀ b ∈ batchesOf bs l, b ≠ [] := by
    intro fuel
    induction fuel with
    | zero =>
      intro l h
      have : l = [] := List.eq_nil_of_length_eq_zero (Nat.le_zero.mp h)
      subst this
      simp [batchesOf, batchesOfAux]
    | succ f ih =>
      intro l h b hb
      match l with
      | [] => simp [batchesOf, batchesOfAux] at hb
      | x :: xs =>
        rw [batchesOf_cons] at hb
        rcases List.mem_cons.mp hb with hb | hb
        · subst hb
          intro hcon
          rcases List.take_eq_nil_iff.mp hcon with hz | hz
          · omega
          · exact List.cons_ne_nil x xs hz
        · have hdrop : (xs.drop (bs - 1)).length ≤ f := by
            have := List.length_drop (bs - 1) xs
            simp at h
            omega
          exact ih _ hdrop b hb
  exact fun l => main l.length l (Nat.le_refl _)

/-- Helper: folding fully successful batches over an existing index of the
same dimension accumulates every batch's row count. -/
theorem streamBatches_all_ok_acc {outcomes : Nat → BatchOutcome} {d : Nat} :
    ∀ (l : List (Nat × List String)) (n : Nat),
      (∀ p ∈ l, outcomes p.1 = BatchOutcome.ok p.2.length d) →
      (∀ p ∈ l, p.2 ≠ []) →
      streamBatches outcomes l (some ⟨d, n⟩) =
        some ⟨d, n + (l.map (fun p => p.2.length)).sum⟩ := by
  intro l
  induction l with
  | nil => intro n _ _; simp [streamBatches]
  | cons hd tl ih =>
    intro n hok hne
    obtain ⟨i, batch⟩ := hd
    have hb : batch ≠ [] := hne (i, batch) (List.mem_cons_self _ _)
    have hbe : batch.isEmpty = false := by
      simpa [List.isEmpty_iff] using hb
    simp only [streamBatches, hbe, if_neg Bool.false_ne_true]
    rw [hok (i, batch) (List.mem_cons_self _ _)]
    have hlen : batch.length ≠ 0 := by
      simpa [List.length_eq_zero] using hb
    simp only [addBatch, if_neg hlen, if_true]
    rw [ih (n + batch.length)
      (fun p hp => hok p (List.mem_cons_of_mem _ hp))
      (fun p hp => hne p (List.mem_cons_of_mem _ hp))]
    simp [Nat.add_assoc]

/-- Helper: folding fully successful batches from no index yields an index
of the common dimension holding one row per text. -/
theorem streamBatches_all_ok {outcomes : Nat → BatchOutcome} {d : Nat}
    (l : List (Nat × List String)) (hne : l ≠ [])
    (hok : ∀ p ∈ l, outcomes p.1 = BatchOutcome.ok p.2.length d)
    (hnil : ∀ p ∈ l, p.2 ≠ []) :
    streamBatches outcomes l none =
      some ⟨d, (l.map (fun p => p.2.length)).sum⟩ := by
  match l with
  | [] => exact absurd rfl hne
  | (i, batch) :: tl =>
    have hb : batch ≠ [] := hnil (i, batch) (List.mem_cons_self _ _)
    have hbe : batch.isEmpty = false := by
      simpa [List.isEmpty_iff] using hb
    simp only [streamBatches, hbe, if_neg Bool.false_ne_true]
    rw [hok (i, batch) (List.mem_cons_self _ _)]
    have hlen : batch.length ≠ 0 := by
      simpa [List.length_eq_zero] using hb
    simp only [addBatch, if_neg hlen]
    rw [streamBatches_all_ok_acc tl batch.length
      (fun p hp => hok p (List.mem_cons_of_mem _ hp))
      (fun p hp => hnil p (List.mem_cons_of_mem _ hp))]
    simp

/-- Helper: the enumerated batches carry exactly the batches. -/
theorem enumBatches_map_snd (bs : Nat) (texts : List String) :
    (enumBatches bs texts).map (fun p => p.2) = batchesOf bs texts := by
  unfold enumBatches
  rw [List.map_map]
  exact List.enum_map_snd _

set_option maxRecDepth 10000

/-- C1 counterexample: with batch size 128, 129 chunk texts and the first
embedding batch failing (second batch succeeding with one vector), the
build completes with status `ready`, yet the persisted metadata holds all
129 chunk records (`count = 129`) while the persisted vector index has a
single row — the skipped batch's chunks were still added to metadata, and
the row/metadata alignment the claim asserts is broken. -/
theorem C1_counterexample :
    build_embeddings_for_project 128 cOutcomes false []
        (List.replicate 129 "x") (List.replicate 129 cMeta) [] "p" "t" =
      BuildOutcome.ready 129
        ⟨4, 129, "p", "t", List.replicate 129 cMeta, []⟩ (some 1) ∧
    (129 : Nat) ≠ 1 := by decide

/-- C1 (amended): the persisted metadata always records every produced
chunk (`count = len(new_metas)`, items in production order), independently
of which embedding batches succeeded; the claimed equality between the
metadata count and the persisted vector row count — with list order equal
to row order — holds exactly in the case where every embedding batch
succeeds, each contributing one row per chunk of a common dimension. -/
theorem C1_alignment_when_all_batches_ok (bs d : Nat)
    (outcomes : Nat → BatchOutcome) (existingItems newMetas : List ChunkMeta)
    (newTexts : List String) (currentFiles : List (String × String))
    (pid now : String) (hbs : 0 < bs) (hne : newTexts ≠ [])
    (hlen : newMetas.length = newTexts.length)
    (hok : ∀ p ∈ enumBatches bs newTexts,
      outcomes p.1 = BatchOutcome.ok p.2.length d) :
    build_embeddings_for_project bs outcomes false existingItems newTexts
        newMetas currentFiles pid now =
      BuildOutcome.ready newMetas.length
        ⟨d, newMetas.length, pid, now, newMetas, currentFiles⟩
        (some newTexts.length) ∧
    newMetas.length = newTexts.length := by
  have hb_ne : ∀ p ∈ enumBatches bs newTexts, p.2 ≠ [] := by
    intro p hp
    have hm : p.2 ∈ (enumBatches bs newTexts).map (fun q => q.2) :=
      List.mem_map_of_mem _ hp
    rw [enumBatches_map_snd] at hm
    exact batchesOf_ne_nil hbs newTexts p.2 hm
  have henum_ne : enumBatches bs newTexts ≠ [] := by
    match newTexts, hne with
    | x :: xs, _ => simp [enumBatches, batchesOf_cons]
  have hsum : ((enumBatches bs newTexts).map (fun p => p.2.length)).sum =
      newTexts.length := by
    have h1 : (enumBatches bs newTexts).map (fun p => p.2.length) =
        ((enumBatches bs newTexts).map (fun q => q.2)).map List.length := by
      rw [List.map_map]
      rfl
    rw [h1, enumBatches_map_snd, ← List.length_flatten, batchesOf_join hbs]
  have hstream : build_faiss_index_stream bs outcomes newTexts =
      Except.ok ⟨d, newTexts.length⟩ := by
    unfold build_faiss_index_stream
    rw [if_neg (by simpa using List.length_pos.mpr hne |>.ne')]
    rw [streamBatches_all_ok (enumBatches bs newTexts) henum_ne hok hb_ne, hsum]
  refine ⟨?_, hlen⟩
  unfold build_embeddings_for_project
  rw [if_neg (by simp)]
  rw [if_neg (by simpa using hne)]
  rw [hstream]

theorem C1_alignment_witness :
    (0 < 128 ∧ (["a", "b"] : List String) ≠ [] ∧
      ([cMeta, cMeta] : List ChunkMeta).length = (["a", "b"] : List String).length ∧
      ∀ p ∈ enumBatches 128 ["a", "b"],
        (fun _ => BatchOutcome.ok 2 4) p.1 = BatchOutcome.ok p.2.length 4) ∧
    build_embeddings_for_project 128 (fun _ => BatchOutcome.ok 2 4) false []
        ["a", "b"] [cMeta, cMeta] [] "p" "t" =
      BuildOutcome.ready 2 ⟨4, 2, "p", "t", [cMeta, cMeta], []⟩ (some 2) :=
  ⟨⟨by decide, by decide, by decide, by decide⟩,
    (C1_alignment_when_all_batches_ok 128 4 (fun _ => BatchOutcome.ok 2 4) []
      [cMeta, cMeta] ["a", "b"] [] "p" "t" (by decide) (by decide) (by decide)
      (by decide)).1⟩

/-- Helper: an entry of the built tree corresponds exactly to a directory
listing entry that survives the site-map filters: a non-ignored file with
an allow-listed extension and positive size (as a leaf), or a non-ignored,
non-dot directory with a non-empty subtree. -/
theorem build_tree_mem_iff (cs : List FSTree) (name : String) (t : WikiTree) :
    (name, t) ∈ build_tree cs ↔
      ((∃ size, FSTree.file name size ∈ cs ∧ name ∉ IGNORE_FILES ∧
        pyToLower (splitextExt name) ∈ allowed_exts ∧ 0 < size ∧
        t = WikiTree.node []) ∨
      (∃ ch, FSTree.dir name ch ∈ cs ∧ name ∉ IGNORE_DIRS ∧
        pyStartsWith name "." = false ∧ build_tree ch ≠ [] ∧
        t = WikiTree.node (build_tree ch))) := by
  induction cs with
  | nil => simp [build_tree]
  | cons hd rest ih =>
    cases hd with
    | file n sz =>
      by_cases h1 : n ∈ IGNORE_FILES
      · rw [build_tree, if_pos h1, ih]
        constructor
        · rintro (⟨sz2, hs, hr⟩ | ⟨ch, hs, hr⟩)
          · exact Or.inl ⟨sz2, List.mem_cons_of_mem _ hs, hr⟩
          · exact Or.inr ⟨ch, List.mem_cons_of_mem _ hs, hr⟩
        · rintro (⟨sz2, hs, hni, hr⟩ | ⟨ch, hs, hr⟩)
          · rcases List.mem_cons.mp hs with heq | hs
            · cases heq
              exact absurd h1 hni
            · exact Or.inl ⟨sz2, hs, hni, hr⟩
          · rcases List.mem_cons.mp hs with heq | hs
            · exact absurd heq (by simp)
            · exact Or.inr ⟨ch, hs, hr⟩
      · by_cases h2 : pyToLower (splitextExt n) ∈ allowed_exts ∧ 0 < sz
        · rw [build_tree, if_neg h1, if_pos h2]
          rw [List.mem_cons, ih]
          constructor
          · rintro (heq | (⟨sz2, hs, hr⟩ | ⟨ch, hs, hr⟩))
            · rw [Prod.mk.injEq] at heq
              obtain ⟨rfl, rfl⟩ := heq
              exact Or.inl ⟨sz, List.mem_cons_self _ _, h1, h2.1, h2.2, rfl⟩
            · exact Or.inl ⟨sz2, List.mem_cons_of_mem _ hs, hr⟩
            · exact Or.inr ⟨ch, List.mem_cons_of_mem _ hs, hr⟩
          · rintro (⟨sz2, hs, hni, hext, hpos, ht⟩ | ⟨ch, hs, hr⟩)
            · rcases List.mem_cons.mp hs with heq | hs
              · cases heq
                exact Or.inl (by rw [Prod.mk.injEq]; exact ⟨rfl, ht⟩)
              · exact Or.inr (Or.inl ⟨sz2, hs, hni, hext, hpos, ht⟩)
            · rcases List.mem_cons.mp hs with heq | hs
              · exact absurd heq (by simp)
              · exact Or.inr (Or.inr ⟨ch, hs, hr⟩)
        · rw [build_tree, if_neg h1, if_neg h2, ih]
          constructor
          · rintro (⟨sz2, hs, hr⟩ | ⟨ch, hs, hr⟩)
            · exact Or.inl ⟨sz2, List.mem_cons_of_mem _ hs, hr⟩
            · exact Or.inr ⟨ch, List.mem_cons_of_mem _ hs, hr⟩
          · rintro (⟨sz2, hs, hni, hext, hpos, ht⟩ | ⟨ch, hs, hr⟩)
            · rcases List.mem_cons.mp hs with heq | hs
              · cases heq
                exact absurd ⟨hext, hpos⟩ h2
              · exact Or.inl ⟨sz2, hs, hni, hext, hpos, ht⟩
            · rcases List.mem_cons.mp hs with heq | hs
              · exact absurd heq (by simp)
              · exact Or.inr ⟨ch, hs, hr⟩
    | dir n ch =>
      by_cases h1 : n ∈ IGNORE_DIRS ∨ pyStartsWith n "."
      · rw [build_tree, if_pos h1, ih]
        constructor
        · rintro (⟨sz2, hs, hr⟩ | ⟨ch2, hs, hr⟩)
          · exact Or.inl ⟨sz2, List.mem_cons_of_mem _ hs, hr⟩
          · exact Or.inr ⟨ch2, List.mem_cons_of_mem _ hs, hr⟩
        · rintro (⟨sz2, hs, hr⟩ | ⟨ch2, hs, hnd, hns, hr⟩)
          · rcases List.mem_cons.mp hs with heq | hs
            · exact absurd heq (by simp)
            · exact Or.inl ⟨sz2, hs, hr⟩
          · rcases List.mem_cons.mp hs with heq | hs
            · cases heq
              rcases h1 with h1 | h1
              · exact absurd h1 hnd
              · rw [h1] at hns
                exact absurd hns (by simp)
            · exact Or.inr ⟨ch2, hs, hnd, hns, hr⟩
      · by_cases h2 : (build_tree ch).isEmpty
        · rw [build_tree, if_neg h1]
          simp only [if_pos h2]
          rw [ih]
          have hch : build_tree ch = [] := List.isEmpty_iff.mp h2
          constructor
          · rintro (⟨sz2, hs, hr⟩ | ⟨ch2, hs, hr⟩)
            · exact Or.inl ⟨sz2, List.mem_cons_of_mem _ hs, hr⟩
            · exact Or.inr ⟨ch2, List.mem_cons_of_mem _ hs, hr⟩
          · rintro (⟨sz2, hs, hr⟩ | ⟨ch2, hs, hnd, hns, hne2, hr⟩)
            · rcases List.mem_cons.mp hs with heq | hs
              · exact absurd heq (by simp)
              · exact Or.inl ⟨sz2, hs, hr⟩
            · rcases List.mem_cons.mp hs with heq | hs
              · cases heq
                exact absurd hch hne2
              · exact Or.inr ⟨ch2, hs, hnd, hns, hne2, hr⟩
        · rw [build_tree, if_neg h1]
          simp only [if_neg h2]
          rw [List.mem_cons, ih]
          push_neg at h1
          have hch : build_tree ch ≠ [] := by
            simpa [List.isEmpty_iff] using h2
          constructor
          · rintro (heq | (⟨sz2, hs, hr⟩ | ⟨ch2, hs, hr⟩))
            · rw [Prod.mk.injEq] at heq
              obtain ⟨rfl, rfl⟩ := heq
              exact Or.inr ⟨ch, List.mem_cons_self _ _, h1.1,
                Bool.eq_false_iff.mpr h1.2, hch, rfl⟩
            · exact Or.inl ⟨sz2, List.mem_cons_of_mem _ hs, hr⟩
            · exact Or.inr ⟨ch2, List.mem_cons_of_mem _ hs, hr⟩
          · rintro (⟨sz2, hs, hr⟩ | ⟨ch2, hs, hnd, hns, hne2, hr⟩)
            · rcases List.mem_cons.mp hs with heq | hs
              · exact absurd heq (by simp)
              · exact Or.inr (Or.inl ⟨sz2, hs, hr⟩)
            · rcases List.mem_cons.mp hs with heq | hs
              · cases heq
                exact Or.inl (by rw [Prod.mk.injEq]; exact ⟨rfl, hr⟩)
              · exact Or.inr (Or.inr ⟨ch2, hs, hnd, hns, hne2, hr⟩)

/-- Helper: every key of the built tree is the name of a listing entry. -/
theorem build_tree_keys_subset (cs : List FSTree) :
    ∀ k ∈ (build_tree cs).map Prod.fst, k ∈ cs.map fsName := by
  intro k hk
  rw [List.mem_map] at hk
  obtain ⟨⟨name, t⟩, hmem, rfl⟩ := hk
  rcases (build_tree_mem_iff cs name t).mp hmem with ⟨sz, hs, _⟩ | ⟨ch, hs, _⟩
  · exact List.mem_map.mpr ⟨_, hs, rfl⟩
  · exact List.mem_map.mpr ⟨_, hs, rfl⟩

/-- Helper: iterating a sorted directory listing produces entries in sorted
key order. -/
theorem build_tree_sorted (cs : List FSTree)
    (h : (cs.map fsName).Sorted (· ≤ ·)) :
    ((build_tree cs).map Prod.fst).Sorted (· ≤ ·) := by
  induction cs with
  | nil => simp [build_tree]
  | cons hd rest ih =>
    rw [List.map_cons, List.sorted_cons] at h
    obtain ⟨hle, hrest⟩ := h
    cases hd with
    | file n sz =>
      rw [build_tree]
      split_ifs with hA hB
      · exact ih hrest
      · rw [List.map_cons, List.sorted_cons]
        exact ⟨fun b hb => hle b (build_tree_keys_subset rest b hb), ih hrest⟩
      · exact ih hrest
    | dir n ch =>
      rw [build_tree]
      by_cases hA : n ∈ IGNORE_DIRS ∨ pyStartsWith n "."
      · rw [if_pos hA]
        exact ih hrest
      · rw [if_neg hA]
        by_cases hB : (build_tree ch).isEmpty
        · simp only [if_pos hB]
          exact ih hrest
        · simp only [if_neg hB]
          rw [List.map_cons, List.sorted_cons]
          exact ⟨fun b hb => hle b (build_tree_keys_subset rest b hb), ih hrest⟩

/-- C9 counterexample: when the project root contains a real (non-ignored,
non-empty) directory named `overview`, `dict.update` replaces the synthetic
leaf's value with that directory's subtree, so the first entry of the
returned map is named `overview` but is not a leaf. -/
theorem C9_counterexample :
    create_wiki_structure
        (some [FSTree.dir "overview" [FSTree.file "a.py" 1]]) =
      [("overview", WikiTree.node [("a.py", WikiTree.node [])])] ∧
    WikiTree.node [("a.py", WikiTree.node [])] ≠ WikiTree.node [] := by
  constructor
  · simp +decide [create_wiki_structure, pyDictUpdate, build_tree]
  · simp

/-- C9 (amended): `create_wiki_structure` recurses the (sorted) directory
listing in order, skips deny-listed and dot-prefixed directories, includes
exactly the files with an allow-listed extension, positive size and a name
outside the file deny-list, and its first entry always carries the key
`"overview"`; that first entry is the synthetic empty leaf whenever the
built tree has no entry named `overview` — in particular whenever the
project root does not exist — but a kept directory named `overview`
replaces the leaf's value with its subtree. -/
theorem C9_site_map (root : Option (List FSTree)) :
    (∃ v rest, create_wiki_structure root = ("overview", v) :: rest) ∧
    (root = none → create_wiki_structure root = [("overview", WikiTree.node [])]) ∧
    (∀ children, root = some children →
      (build_tree children).lookup "overview" = none →
      ∃ rest, create_wiki_structure root =
        ("overview", WikiTree.node []) :: rest) ∧
    (∀ cs (name : String) (t : WikiTree), (name, t) ∈ build_tree cs ↔
      ((∃ size, FSTree.file name size ∈ cs ∧ name ∉ IGNORE_FILES ∧
        pyToLower (splitextExt name) ∈ allowed_exts ∧ 0 < size ∧
        t = WikiTree.node []) ∨
      (∃ ch, FSTree.dir name ch ∈ cs ∧ name ∉ IGNORE_DIRS ∧
        pyStartsWith name "." = false ∧ build_tree ch ≠ [] ∧
        t = WikiTree.node (build_tree ch)))) ∧
    (∀ cs, (cs.map fsName).Sorted (· ≤ ·) →
      ((build_tree cs).map Prod.fst).Sorted (· ≤ ·)) := by
  refine ⟨?_, ?_, ?_, build_tree_mem_iff, build_tree_sorted⟩
  · match root with
    | none => exact ⟨WikiTree.node [], [], rfl⟩
    | some children =>
      exact ⟨((build_tree children).lookup "overview").getD (WikiTree.node []),
        (build_tree children).filter
          (fun p => (([("overview", WikiTree.node [])]).lookup p.1).isNone), rfl⟩
  · intro h
    subst h
    rfl
  · intro children hc hl
    subst hc
    refine ⟨(build_tree children).filter
      (fun p => (([("overview", WikiTree.node [])]).lookup p.1).isNone), ?_⟩
    show pyDictUpdate [("overview", WikiTree.node [])] (build_tree children) = _
    unfold pyDictUpdate
    rw [List.map_singleton, hl]
    rfl

theorem C9_site_map_witness :
    ((build_tree [FSTree.file "a.py" 1]).lookup "overview" = none) ∧
    (∃ rest, create_wiki_structure (some [FSTree.file "a.py" 1]) =
      ("overview", WikiTree.node []) :: rest) ∧
    create_wiki_structure none = [("overview", WikiTree.node [])] ∧
    (([FSTree.file "a.py" 1].map fsName).Sorted (· ≤ ·) ∧
      ((build_tree [FSTree.file "a.py" 1]).map Prod.fst).Sorted (· ≤ ·)) := by
  have hl : (build_tree [FSTree.file "a.py" 1]).lookup "overview" = none := by
    simp +decide [build_tree]
  have hs : ([FSTree.file "a.py" 1].map fsName).Sorted (· ≤ ·) := by
    simp [fsName]
  exact ⟨hl, (C9_site_map (some [FSTree.file "a.py" 1])).2.2.1 _ rfl hl,
    (C9_site_map none).2.1 rfl,
    hs, (C9_site_map none).2.2.2.2 [FSTree.file "a.py" 1] hs⟩
